import Mathlib

/-!
Verification of the chunked-upload assembly and integrity engine of
`server/utils.py` (dcc-file-transfer), via a shallow embedding.

Modelling conventions:
* a filesystem path is a `List Char` (the string Python manipulates);
* file contents are `List Nat` (one `Nat` per byte; only concatenation and
  length matter to the verified code);
* the filesystem is an association list of paths to contents plus a set of
  existing directories and a set of paths whose reads fail with `IOError`
  (the error-injection needed to exercise the `except IOError` paths);
* `datetime` values are `Int` ticks (seconds); `timedelta(days)` is
  `days * 86400`;
* Python exceptions that escape a function are an `Except` error result;
* the gzip library is an external collaborator: `gzip_test` takes an oracle
  `gz : List Nat → Bool` telling whether the first megabyte of a byte
  stream decompresses without error, exactly the question
  `gzip.open(f); f.read(1024*1024)` answers.
-/

abbrev FPath : Type := List Char

/-- Lexicographic (code-point) strict comparison of two strings, the order
Python's `list.sort()` uses on `str` values. -/
def lexLt : FPath → FPath → Bool
  | _, [] => false
  | [], _ :: _ => true
  | a :: as, b :: bs => if a < b then true else if b < a then false else lexLt as bs

/-- The non-strict order induced by `lexLt`; `list.sort()` orders by it. -/
def pyLe (x y : FPath) : Prop := lexLt x y = true ∨ x = y

instance : DecidableRel pyLe := fun _ _ => inferInstanceAs (Decidable (_ ∨ _))

theorem lexLt_irrefl (x : FPath) : lexLt x x = false := by
  induction x with
  | nil => rfl
  | cons a as ih => simp [lexLt, lt_irrefl, ih]

theorem lexLt_asymm {x y : FPath} (h : lexLt x y = true) : lexLt y x = false := by
  induction x generalizing y with
  | nil =>
    cases y with
    | nil => simp [lexLt] at h
    | cons b bs => rfl
  | cons a as ih =>
    cases y with
    | nil => simp [lexLt] at h
    | cons b bs =>
      by_cases hab : a < b
      · simp [lexLt, hab, not_lt_of_gt hab]
      · by_cases hba : b < a
        · simp [lexLt, hab, hba] at h
        · simp [lexLt, hab, hba] at h ⊢
          exact ih h

theorem lexLt_connex {x y : FPath} (h1 : lexLt x y = false) (h2 : lexLt y x = false) :
    x = y := by
  induction x generalizing y with
  | nil =>
    cases y with
    | nil => rfl
    | cons b bs => simp [lexLt] at h1
  | cons a as ih =>
    cases y with
    | nil => simp [lexLt] at h2
    | cons b bs =>
      by_cases hab : a < b
      · simp [lexLt, hab] at h1
      · by_cases hba : b < a
        · simp [lexLt, hba, not_lt_of_gt hba] at h2
        · have hcc : a = b := le_antisymm (not_lt.mp hba) (not_lt.mp hab)
          subst hcc
          simp [lexLt, lt_irrefl] at h1 h2
          exact congrArg (a :: ·) (ih h1 h2)

theorem lexLt_trans {x y z : FPath} (h1 : lexLt x y = true) (h2 : lexLt y z = true) :
    lexLt x z = true := by
  induction x generalizing y z with
  | nil =>
    cases z with
    | nil =>
      cases y with
      | nil => exact h1
      | cons b bs => simp [lexLt] at h2
    | cons c cs => rfl
  | cons a as ih =>
    cases y with
    | nil => simp [lexLt] at h1
    | cons b bs =>
      cases z with
      | nil => simp [lexLt] at h2
      | cons c cs =>
        by_cases hab : a < b <;> by_cases hbc : b < c
        · simp [lexLt, lt_trans hab hbc]
        · have hcb : c ≤ b := not_lt.mp hbc
          by_cases hcbe : b = c
          · subst hcbe; simp [lexLt, hab]
          · have : c < b := lt_of_le_of_ne hcb (fun h => hcbe h.symm)
            simp [lexLt, hbc, this] at h2
        · have hba : b ≤ a := not_lt.mp hab
          by_cases habe : a = b
          · subst habe; simp [lexLt, hbc]
          · have : b < a := lt_of_le_of_ne hba (fun h => habe h.symm)
            simp [lexLt, hab, this] at h1
        · have hba : b ≤ a := not_lt.mp hab
          have hcb : c ≤ b := not_lt.mp hbc
          by_cases habe : a = b
          · subst habe
            by_cases hbce : a = c
            · subst hbce
              simp [lexLt, lt_irrefl] at h1 h2 ⊢
              exact ih h1 h2
            · have : c < a := lt_of_le_of_ne hcb (fun h => hbce h.symm)
              simp [lexLt, hbc, this] at h2
          · have : b < a := lt_of_le_of_ne hba (fun h => habe h.symm)
            simp [lexLt, hab, this] at h1

theorem pyLe_total (x y : FPath) : pyLe x y ∨ pyLe y x := by
  by_cases h1 : lexLt x y = true
  · exact Or.inl (Or.inl h1)
  · by_cases h2 : lexLt y x = true
    · exact Or.inr (Or.inl h2)
    · exact Or.inl (Or.inr (lexLt_connex (Bool.not_eq_true _ ▸ h1 : lexLt x y = false)
        (Bool.not_eq_true _ ▸ h2 : lexLt y x = false)))

theorem pyLe_trans {x y z : FPath} (h1 : pyLe x y) (h2 : pyLe y z) : pyLe x z := by
  rcases h1 with h1 | rfl
  · rcases h2 with h2 | rfl
    · exact Or.inl (lexLt_trans h1 h2)
    · exact Or.inl h1
  · exact h2

theorem pyLe_antisymm {x y : FPath} (h1 : pyLe x y) (h2 : pyLe y x) : x = y := by
  rcases h1 with h1 | rfl
  · rcases h2 with h2 | rfl
    · exact absurd h2 (by simp [lexLt_asymm h1])
    · rfl
  · rfl

instance : IsTotal FPath pyLe := ⟨pyLe_total⟩
instance : IsTrans FPath pyLe := ⟨fun _ _ _ => pyLe_trans⟩
instance : IsAntisymm FPath pyLe := ⟨fun _ _ => pyLe_antisymm⟩

theorem lexLt_append_left (p x y : FPath) : lexLt (p ++ x) (p ++ y) = lexLt x y := by
  induction p with
  | nil => rfl
  | cons a as ih => simp [lexLt, lt_irrefl, ih]

/-! ### Decimal formatting: `"{:08d}".format(n)` -/

/-- The character for a decimal digit. -/
def digitChar (d : Nat) : Char := Char.ofNat (48 + d)

/-- Decimal digits of `n`, least significant first, by repeated division;
`fuel ≥ n` makes the recursion total (each step divides by 10). -/
def digitsRev : Nat → Nat → List Char
  | 0, _ => []
  | fuel + 1, n => if n = 0 then [] else digitChar (n % 10) :: digitsRev fuel (n / 10)

/-- The decimal numeral of `n`, most significant digit first (`str(n)`). -/
def natDigits (n : Nat) : List Char :=
  if n = 0 then ['0'] else (digitsRev n n).reverse

/-- `"{:08d}".format(n)`: the decimal numeral left-padded with `'0'` to a
minimum width of 8 characters. -/
def format08d (n : Nat) : List Char :=
  List.replicate (8 - (natDigits n).length) '0' ++ natDigits n

/-- Fixed-width base-10 representation, most significant digit first
(proof-side normal form for `format08d` on inputs `< 10 ^ w`). -/
def padDigits : Nat → Nat → List Char
  | 0, _ => []
  | w + 1, n => digitChar (n / 10 ^ w % 10) :: padDigits w n

theorem digitsRev_fuel {f₁ f₂ n : Nat} (h₁ : n ≤ f₁) (h₂ : n ≤ f₂) :
    digitsRev f₁ n = digitsRev f₂ n := by
  induction f₁ generalizing f₂ n with
  | zero =>
    interval_cases n
    cases f₂ <;> simp [digitsRev]
  | succ f ih =>
    rcases Nat.eq_zero_or_pos n with rfl | hn
    · cases f₂ <;> simp [digitsRev]
    · have hf₂ : ∃ g, f₂ = g + 1 := ⟨f₂ - 1, by omega⟩
      obtain ⟨g, rfl⟩ := hf₂
      have hd : n / 10 ≤ f := by
        have := Nat.div_lt_self hn (by norm_num : 1 < 10)
        omega
      have hd₂ : n / 10 ≤ g := by
        have := Nat.div_lt_self hn (by norm_num : 1 < 10)
        omega
      simp [digitsRev, hn.ne', ih hd hd₂]

theorem padDigits_snoc (w n : Nat) :
    padDigits (w + 1) n = padDigits w (n / 10) ++ [digitChar (n % 10)] := by
  induction w generalizing n with
  | zero => simp [padDigits]
  | succ w ih =>
    have hdiv : n / 10 / 10 ^ w = n / 10 ^ (w + 1) := by
      rw [Nat.div_div_eq_div_mul, pow_succ, mul_comm (10 ^ w) 10, mul_comm]
    calc padDigits (w + 2) n
        = digitChar (n / 10 ^ (w + 1) % 10) :: padDigits (w + 1) n := rfl
      _ = digitChar (n / 10 ^ (w + 1) % 10) ::
            (padDigits w (n / 10) ++ [digitChar (n % 10)]) := by rw [ih]
      _ = padDigits (w + 1 + 1 - 1) (n / 10) ++ [digitChar (n % 10)] := by
            simp [padDigits, hdiv]

theorem padDigits_eq_replicate_append {w n : Nat} (hw : n < 10 ^ w) {fuel : Nat}
    (hfuel : n ≤ fuel) :
    padDigits w n =
      List.replicate (w - (digitsRev fuel n).length) (digitChar 0) ++
        (digitsRev fuel n).reverse := by
  induction w generalizing n fuel with
  | zero =>
    have : n = 0 := by omega
    subst this
    cases fuel <;> simp [padDigits, digitsRev]
  | succ w ih =>
    rcases Nat.eq_zero_or_pos n with rfl | hn
    · have h0 : ∀ f, digitsRev f 0 = [] := fun f => by cases f <;> simp [digitsRev]
      rw [padDigits_snoc, Nat.zero_div, Nat.zero_mod,
        ih (show 0 < 10 ^ w by positivity) (Nat.zero_le fuel), h0]
      simp [List.replicate_succ']
    · obtain ⟨f, rfl⟩ : ∃ g, fuel = g + 1 := ⟨fuel - 1, by omega⟩
      have hdlt : n / 10 < 10 ^ w := by
        rw [Nat.div_lt_iff_lt_mul (by norm_num : 0 < 10)]
        calc n < 10 ^ (w + 1) := hw
          _ = 10 ^ w * 10 := by rw [pow_succ]
      have hdf : n / 10 ≤ f := by
        have := Nat.div_lt_self hn (by norm_num : 1 < 10)
        omega
      rw [padDigits_snoc, ih hdlt hdf]
      simp only [digitsRev, if_neg hn.ne']
      rw [List.reverse_cons, List.length_cons]
      simp [Nat.succ_sub_succ, List.append_assoc]

theorem padDigits_mod (w n : Nat) : padDigits w (n % 10 ^ w) = padDigits w n := by
  induction w generalizing n with
  | zero => rfl
  | succ w ih =>
    have hhead : n % 10 ^ (w + 1) / 10 ^ w % 10 = n / 10 ^ w % 10 := by
      have h1 : n % 10 ^ (w + 1) / 10 ^ w = n / 10 ^ w % 10 := by
        rw [pow_succ, Nat.mod_mul_right_div_self]
      rw [h1]
      omega
    have htail : padDigits w (n % 10 ^ (w + 1)) = padDigits w n := by
      rw [← ih (n % 10 ^ (w + 1)), Nat.mod_mod_of_dvd _ (by rw [pow_succ]; exact ⟨10, rfl⟩),
        ih n]
    simp [padDigits, hhead, htail]

theorem digitChar_lt_digitChar : ∀ a, a < 10 → ∀ b, b < 10 →
    ((digitChar a < digitChar b) ↔ a < b) := by decide

theorem format08d_eq_padDigits {n : Nat} (h : n < 10 ^ 8) :
    format08d n = padDigits 8 n := by
  rcases Nat.eq_zero_or_pos n with rfl | hn
  · decide
  · have hrev : natDigits n = (digitsRev n n).reverse := by
      simp [natDigits, hn.ne']
    rw [format08d, hrev, padDigits_eq_replicate_append h (le_refl n)]
    simp [digitChar]

theorem lexLt_padDigits {w m n : Nat} (hmn : m < n) (hn : n < 10 ^ w) :
    lexLt (padDigits w m) (padDigits w n) = true := by
  induction w generalizing m n with
  | zero =>
    exfalso
    have : n = 0 := by omega
    omega
  | succ w ih =>
    have hm : m < 10 ^ (w + 1) := lt_trans hmn hn
    have hdn : n / 10 ^ w < 10 := Nat.div_lt_of_lt_mul (by rw [← pow_succ]; exact hn)
    have hdm : m / 10 ^ w < 10 := Nat.div_lt_of_lt_mul (by rw [← pow_succ]; exact hm)
    have hdle : m / 10 ^ w ≤ n / 10 ^ w := Nat.div_le_div_right hmn.le
    rcases lt_or_eq_of_le hdle with hdlt | hdeq
    · have hclt : digitChar (m / 10 ^ w % 10) < digitChar (n / 10 ^ w % 10) := by
        rw [Nat.mod_eq_of_lt hdm, Nat.mod_eq_of_lt hdn]
        exact (digitChar_lt_digitChar _ hdm _ hdn).mpr hdlt
      simp [padDigits, lexLt, hclt]
    · have hceq : digitChar (m / 10 ^ w % 10) = digitChar (n / 10 ^ w % 10) := by
        rw [hdeq]
      have hmodlt : m % 10 ^ w < n % 10 ^ w := by
        have hm' := Nat.div_add_mod m (10 ^ w)
        have hn' := Nat.div_add_mod n (10 ^ w)
        rw [hdeq] at hm'
        omega
      have hmodbound : n % 10 ^ w < 10 ^ w := Nat.mod_lt _ (by positivity)
      have htail := ih hmodlt hmodbound
      rw [padDigits_mod, padDigits_mod] at htail
      simp [padDigits, lexLt, hceq, lt_irrefl, htail]

theorem lexLt_format08d {m n : Nat} (hmn : m < n) (hn : n < 100000000) :
    lexLt (format08d m) (format08d n) = true := by
  have h8 : (100000000 : Nat) = 10 ^ 8 := by norm_num
  rw [format08d_eq_padDigits (h8 ▸ lt_trans hmn hn), format08d_eq_padDigits (h8 ▸ hn)]
  exact lexLt_padDigits hmn (h8 ▸ hn)


/-! ### POSIX path operations used by the source -/

/-- `os.path.join(a, b)` (posixpath, two arguments). -/
def pathJoin (a b : FPath) : FPath :=
  if b.head? = some '/' then b
  else if a = [] ∨ a.getLast? = some '/' then a ++ b
  else a ++ '/' :: b

def isSlash (c : Char) : Bool := c == '/'

def notSlash (c : Char) : Bool := !(c == '/')

/-- `os.path.dirname(p)` (posixpath): everything before the final slash,
with trailing slashes stripped unless the result is all slashes. -/
def dirname (p : FPath) : FPath :=
  let i := p.length - (p.reverse.takeWhile notSlash).length
  let head := p.take i
  if head.all isSlash then head
  else (head.reverse.dropWhile isSlash).reverse

/-- `os.path.realpath(p)`: the model has no symbolic links, so path
resolution is the identity. -/
def realpath (p : FPath) : FPath := p

/-- The directory-dependent part of `os.path.join(a, b)` for a relative `b`:
`join(a, b) = joinPre a ++ b` whenever `b` is nonempty and not absolute. -/
def joinPre (a : FPath) : FPath :=
  if a = [] then [] else if a.getLast? = some '/' then a else a ++ ['/']

theorem pathJoin_eq_joinPre {a b : FPath} (hb : b ≠ []) (hb' : b.head? ≠ some '/') :
    pathJoin a b = joinPre a ++ b := by
  unfold pathJoin joinPre
  rcases b with _ | ⟨c, cs⟩
  · exact absurd rfl hb
  · rw [if_neg hb']
    by_cases ha : a = []
    · simp [ha]
    · by_cases hal : a.getLast? = some '/'
      · simp [ha, hal]
      · simp [ha, hal]

theorem takeWhile_all_append {p : Char → Bool} {xs : List Char} (y : Char)
    (ys : List Char) (hxs : ∀ x ∈ xs, p x = true) (hy : p y = false) :
    (xs ++ y :: ys).takeWhile p = xs := by
  induction xs with
  | nil => simp [List.takeWhile_cons, hy]
  | cons a as ih =>
    have ha : p a = true := hxs a (List.mem_cons_self a as)
    have ih' := ih (fun x hx => hxs x (List.mem_cons_of_mem a hx))
    simp [List.takeWhile_cons, ha, ih']

theorem takeWhile_notSlash_of_no_slash {l : List Char} (h : '/' ∉ l) :
    l.takeWhile notSlash = l := by
  rw [List.takeWhile_eq_self_iff]
  intro x hx
  simp only [notSlash, Bool.not_eq_true', beq_eq_false_iff_ne, ne_eq]
  intro hxe
  exact h (hxe ▸ hx)

/-- For a well-formed directory (no trailing slash) and a slash-free
nonempty name, `dirname (join dir name) = dir`. -/
theorem dirname_pathJoin {dir name : FPath} (hd : dir.getLast? ≠ some '/')
    (hn : name ≠ []) (hns : '/' ∉ name) :
    dirname (pathJoin dir name) = dir := by
  have hhead : name.head? ≠ some '/' := by
    rcases name with _ | ⟨c, cs⟩
    · exact absurd rfl hn
    · simp only [List.head?_cons, ne_eq, Option.some.injEq]
      intro h
      exact hns (h ▸ List.mem_cons_self c cs)
  rw [pathJoin_eq_joinPre hn hhead]
  by_cases hdir : dir = []
  · subst hdir
    have htw : name.reverse.takeWhile notSlash = name.reverse :=
      takeWhile_notSlash_of_no_slash (fun h => hns (List.mem_reverse.mp h))
    simp [dirname, joinPre, htw]
  · have hjp : joinPre dir = dir ++ ['/'] := by
      unfold joinPre
      rw [if_neg hdir, if_neg hd]
    rw [hjp]
    have hrev : ((dir ++ ['/']) ++ name).reverse = name.reverse ++ '/' :: dir.reverse := by
      simp
    have htw : (name.reverse ++ '/' :: dir.reverse).takeWhile notSlash =
        name.reverse := by
      refine takeWhile_all_append _ _ (fun x hx => ?_) (by rfl)
      simp only [notSlash, Bool.not_eq_true', beq_eq_false_iff_ne, ne_eq]
      intro hxe
      exact hns (List.mem_reverse.mp (hxe ▸ hx))
    have hlen : ((dir ++ ['/']) ++ name).length - name.reverse.length =
        dir.length + 1 := by
      simp
      omega
    have htake : ((dir ++ ['/']) ++ name).take (dir.length + 1) = dir ++ ['/'] :=
      List.take_left' (by simp)
    obtain ⟨e, hgl⟩ : ∃ e, dir.getLast? = some e := by
      rcases hgl : dir.getLast? with _ | e
      · exact absurd (List.getLast?_eq_none_iff.mp hgl) hdir
      · exact ⟨e, rfl⟩
    have he : ¬ e = '/' := fun h => hd (h ▸ hgl)
    have hall : ((dir ++ ['/']).all isSlash) = false := by
      by_contra hcon
      rw [Bool.not_eq_false, List.all_eq_true] at hcon
      have := hcon e (List.mem_append_left _ (List.mem_of_mem_getLast? hgl))
      simp only [isSlash, beq_iff_eq] at this
      exact he this
    have hdw : dir.reverse.dropWhile isSlash = dir.reverse := by
      rcases hr : dir.reverse with _ | ⟨x, xs⟩
      · rfl
      · have hx : x = e := by
          have h1 := List.head?_reverse dir
          rw [hr, hgl] at h1
          simp only [List.head?_cons] at h1
          exact Option.some.inj h1
        rw [List.dropWhile_cons, if_neg (by simp [isSlash, hx, he])]
    simp only [dirname, hrev, htw, hlen, htake, hall, Bool.false_eq_true, if_false]
    rw [show (dir ++ ['/']).reverse = '/' :: dir.reverse by simp,
      List.dropWhile_cons, if_pos (by rfl), hdw, List.reverse_reverse]

/-! ### Chunk naming: `CHUNK_PREFIX`, `get_chunk_filename` -/

/-- `CHUNK_PREFIX = 'chunk.'`. -/
def CHUNK_PREFIX : List Char := "chunk.".data

/-- `get_chunk_filename(temp_dir, chunk_number)`:
`os.path.join(temp_dir, "{}{:08d}".format(CHUNK_PREFIX, chunk_number))`. -/
def get_chunk_filename (temp_dir : FPath) (chunk_number : Nat) : FPath :=
  pathJoin temp_dir (CHUNK_PREFIX ++ format08d chunk_number)

theorem mem_digitsRev {c : Char} : ∀ {fuel n : Nat}, c ∈ digitsRev fuel n →
    ∃ d, d < 10 ∧ c = digitChar d := by
  intro fuel
  induction fuel with
  | zero => intro n h; simp [digitsRev] at h
  | succ f ih =>
    intro n h
    rw [digitsRev] at h
    by_cases hn : n = 0
    · simp [hn] at h
    · rw [if_neg hn] at h
      rcases List.mem_cons.mp h with h | h
      · exact ⟨n % 10, Nat.mod_lt _ (by norm_num), h⟩
      · exact ih h

theorem no_slash_format08d (n : Nat) : '/' ∉ format08d n := by
  intro h
  rcases List.mem_append.mp h with h | h
  · have := List.eq_of_mem_replicate h
    simp at this
  · unfold natDigits at h
    by_cases hn : n = 0
    · simp [hn] at h
    · rw [if_neg hn] at h
      obtain ⟨d, hd, hc⟩ := mem_digitsRev (List.mem_reverse.mp h)
      revert hc
      interval_cases d <;> decide

theorem no_slash_chunk_name (n : Nat) : '/' ∉ CHUNK_PREFIX ++ format08d n := by
  intro h
  rcases List.mem_append.mp h with h | h
  · revert h; decide
  · exact no_slash_format08d n h

theorem get_chunk_filename_eq (temp_dir : FPath) (n : Nat) :
    get_chunk_filename temp_dir n =
      (joinPre temp_dir ++ CHUNK_PREFIX) ++ format08d n := by
  unfold get_chunk_filename
  rw [pathJoin_eq_joinPre (by simp [CHUNK_PREFIX]) (by simp [CHUNK_PREFIX]),
    List.append_assoc]

theorem lexLt_get_chunk_filename {temp_dir : FPath} {m n : Nat} (hmn : m < n)
    (hn : n < 100000000) :
    lexLt (get_chunk_filename temp_dir m) (get_chunk_filename temp_dir n) = true := by
  rw [get_chunk_filename_eq, get_chunk_filename_eq, lexLt_append_left]
  exact lexLt_format08d hmn hn

/-- Sorting the chunk filenames of the sequence numbers `0 .. N-1`, given in
any order, yields them in ascending numeric order: for the fixed-width
zero-padded names, lexicographic order is numeric order. -/
theorem insertionSort_chunk_filenames {temp_dir : FPath} {N : Nat}
    (hN : N ≤ 100000000) {seqs : List Nat} (hperm : seqs.Perm (List.range N)) :
    (seqs.map (get_chunk_filename temp_dir)).insertionSort pyLe =
      (List.range N).map (get_chunk_filename temp_dir) := by
  refine List.eq_of_perm_of_sorted
    ((List.perm_insertionSort pyLe _).trans (hperm.map _))
    (List.sorted_insertionSort pyLe _) ?_
  rw [List.Sorted, List.pairwise_map]
  refine List.Pairwise.imp_of_mem ?_ (List.pairwise_lt_range N)
  intro a b _ hb hab
  exact Or.inl (lexLt_get_chunk_filename hab
    (lt_of_lt_of_le (List.mem_range.mp hb) hN))

/-! ### Filesystem model -/

/-- One byte of file content. -/
abbrev Byte : Type := Nat

/-- The filesystem: plain files (path to contents), existing directories,
and paths whose reads raise `IOError` (fault injection standing for the
real-world read failures the source guards against). -/
structure FSState where
  files : List (FPath × List Byte)
  dirs : List FPath
  ioerr : List FPath
  deriving DecidableEq

def lookupFS : List (FPath × List Byte) → FPath → Option (List Byte)
  | [], _ => none
  | (q, v) :: rest, p => if q = p then some v else lookupFS rest p

def setAssoc : List (FPath × List Byte) → FPath → List Byte → List (FPath × List Byte)
  | [], p, v => [(p, v)]
  | (q, w) :: rest, p, v =>
    if q = p then (p, v) :: rest else (q, w) :: setAssoc rest p v

def eraseAssoc : List (FPath × List Byte) → FPath → List (FPath × List Byte)
  | [], _ => []
  | (q, v) :: rest, p =>
    if q = p then eraseAssoc rest p else (q, v) :: eraseAssoc rest p

def lookupFile (st : FSState) (p : FPath) : Option (List Byte) := lookupFS st.files p

/-- Reading a file's bytes; `none` is a raised `IOError` (missing file or
injected fault). -/
def readFile (st : FSState) (p : FPath) : Option (List Byte) :=
  if p ∈ st.ioerr then none else lookupFile st p

/-- `os.path.isfile(p)`. -/
def isfile (st : FSState) (p : FPath) : Bool := (lookupFile st p).isSome

/-- `os.path.getsize(p)`; `none` is a raised `OSError`. -/
def getsize (st : FSState) (p : FPath) : Option Nat :=
  (lookupFile st p).map List.length

/-- Writing the whole contents `v` to the file at `p` (create or replace). -/
def setFile (st : FSState) (p : FPath) (v : List Byte) : FSState :=
  { st with files := setAssoc st.files p v }

/-- `os.remove(p)`. -/
def eraseFile (st : FSState) (p : FPath) : FSState :=
  { st with files := eraseAssoc st.files p }

theorem lookupFS_setAssoc_self (fs : List (FPath × List Byte)) (p : FPath)
    (v : List Byte) : lookupFS (setAssoc fs p v) p = some v := by
  induction fs with
  | nil => simp [setAssoc, lookupFS]
  | cons e rest ih =>
    obtain ⟨q, w⟩ := e
    by_cases h : q = p
    · simp [setAssoc, h, lookupFS]
    · simp [setAssoc, h, lookupFS, ih]

theorem lookupFS_setAssoc_ne (fs : List (FPath × List Byte)) {p q : FPath}
    (v : List Byte) (h : ¬ q = p) : lookupFS (setAssoc fs p v) q = lookupFS fs q := by
  have h' : ¬ p = q := fun he => h he.symm
  induction fs with
  | nil => simp [setAssoc, lookupFS, h']
  | cons e rest ih =>
    obtain ⟨r, w⟩ := e
    by_cases hr : r = p
    · subst hr
      simp [setAssoc, lookupFS, h']
    · simp [setAssoc, hr, lookupFS, ih]

theorem setAssoc_setAssoc (fs : List (FPath × List Byte)) (p : FPath)
    (v w : List Byte) : setAssoc (setAssoc fs p v) p w = setAssoc fs p w := by
  induction fs with
  | nil => simp [setAssoc]
  | cons e rest ih =>
    obtain ⟨q, u⟩ := e
    by_cases h : q = p
    · simp [setAssoc, h]
    · simp [setAssoc, h, ih]

theorem eraseAssoc_setAssoc (fs : List (FPath × List Byte)) (p : FPath)
    (v : List Byte) : eraseAssoc (setAssoc fs p v) p = eraseAssoc fs p := by
  induction fs with
  | nil => simp [setAssoc, eraseAssoc]
  | cons e rest ih =>
    obtain ⟨q, u⟩ := e
    by_cases h : q = p
    · simp [setAssoc, h, eraseAssoc]
    · simp [setAssoc, h, eraseAssoc, ih]

theorem lookupFS_eraseAssoc_self (fs : List (FPath × List Byte)) (p : FPath) :
    lookupFS (eraseAssoc fs p) p = none := by
  induction fs with
  | nil => simp [eraseAssoc, lookupFS]
  | cons e rest ih =>
    obtain ⟨q, u⟩ := e
    by_cases h : q = p
    · simp [eraseAssoc, h, ih]
    · simp [eraseAssoc, h, lookupFS, ih]

theorem lookupFS_eraseAssoc_ne (fs : List (FPath × List Byte)) {p q : FPath}
    (h : ¬ q = p) : lookupFS (eraseAssoc fs p) q = lookupFS fs q := by
  induction fs with
  | nil => simp [eraseAssoc]
  | cons e rest ih =>
    obtain ⟨r, u⟩ := e
    by_cases hr : r = p
    · have h' : ¬ p = q := fun he => h he.symm
      simp [eraseAssoc, hr, lookupFS, h', ih]
    · simp [eraseAssoc, hr, lookupFS, ih]

/-! ### Source operations on the filesystem -/

/-- The Python exceptions that can escape the modelled functions. -/
inductive PyErr where
  | indexError
  | osError
  | invalidServerToken
  deriving DecidableEq

/-- `get_tempdir(*args)`: fold `os.path.join` over the arguments starting
from the configured `UPLOAD_FOLDER` (a model parameter). -/
def get_tempdir (upload_folder : FPath) (args : List FPath) : FPath :=
  args.foldl pathJoin upload_folder

/-- Whether `p` is matched by `glob(os.path.join(temp_dir, "chunk.*"))`:
a direct child of `temp_dir` whose name starts with `chunk.`
(`*` matches any slash-free tail, the name never starts with a dot). -/
def isChunkName (temp_dir p : FPath) : Bool :=
  decide (p.take (joinPre temp_dir ++ CHUNK_PREFIX).length =
      joinPre temp_dir ++ CHUNK_PREFIX) &&
    decide ('/' ∉ p.drop (joinPre temp_dir ++ CHUNK_PREFIX).length)

/-- `get_file_chunks(temp_dir)`: the globbed chunk fragments; the order is
OS-dependent, modelled by the file-table order (the caller sorts anyway).
Only plain files exist in upload directories, so the glob ranges over the
file table. -/
def get_file_chunks (st : FSState) (temp_dir : FPath) : List FPath :=
  (st.files.map (fun e => e.1)).filter (isChunkName temp_dir)

/-- The copy loop of `merge_chunks`: with the output file opened (already
truncated by `open(output_file, 'wb')`), append each chunk's bytes in
order; on the first read failure (`IOError`) remove the output file
(best-effort, `OSError` swallowed) and report failure. -/
def copyLoop (st : FSState) (paths : List FPath) (out : FPath) : Bool × FSState :=
  match paths with
  | [] => (true, st)
  | p :: rest =>
    match readFile st p with
    | none => (false, eraseFile st out)
    | some c => copyLoop (setFile st out ((lookupFile st out).getD [] ++ c)) rest out

/-- `merge_chunks(chunk_paths, filename)`: sort the chunk paths
(`chunk_paths.sort()`, a stable lexicographic sort, modelled extensionally
by insertion sort), open for writing the output file named `filename` in
the directory of the first sorted chunk, and stream every chunk into it.
`chunk_paths[0]` raises `IndexError` on an empty list. -/
def merge_chunks (st : FSState) (chunk_paths : List FPath) (filename : FPath) :
    Except PyErr (Bool × FSState) :=
  match List.insertionSort pyLe chunk_paths with
  | [] => .error .indexError
  | p0 :: rest =>
    let output_file := pathJoin (dirname (realpath p0)) filename
    .ok (copyLoop (setFile st output_file []) (p0 :: rest) output_file)

theorem readFile_setFile_ne {st : FSState} {p q : FPath} (v : List Byte)
    (h : ¬ p = q) : readFile (setFile st q v) p = readFile st p := by
  unfold readFile setFile lookupFile
  simp only []
  rw [lookupFS_setAssoc_ne _ _ h]

theorem lookupFile_setFile_self (st : FSState) (p : FPath) (v : List Byte) :
    lookupFile (setFile st p v) p = some v :=
  lookupFS_setAssoc_self _ _ _

theorem setFile_setFile (st : FSState) (p : FPath) (v w : List Byte) :
    setFile (setFile st p v) p w = setFile st p w := by
  unfold setFile
  simp [setAssoc_setAssoc]

theorem eraseFile_setFile (st : FSState) (p : FPath) (v : List Byte) :
    eraseFile (setFile st p v) p = eraseFile st p := by
  unfold eraseFile setFile
  simp [eraseAssoc_setAssoc]

theorem copyLoop_ok (ct : FPath → List Byte) :
    ∀ (paths : List FPath) (st : FSState) (acc : List Byte) (out : FPath),
    out ∉ paths → (∀ p ∈ paths, readFile st p = some (ct p)) →
    copyLoop (setFile st out acc) paths out =
      (true, setFile st out (acc ++ (paths.map ct).flatten)) := by
  intro paths
  induction paths with
  | nil =>
    intro st acc out _ _
    simp [copyLoop]
  | cons p rest ih =>
    intro st acc out hout hread
    have hp : ¬ p = out := fun he => hout (he ▸ List.mem_cons_self p rest)
    have hrd : readFile (setFile st out acc) p = some (ct p) := by
      rw [readFile_setFile_ne _ hp]
      exact hread p (List.mem_cons_self p rest)
    have hstep : setFile (setFile st out acc) out
        ((lookupFile (setFile st out acc) out).getD [] ++ ct p) =
        setFile st out (acc ++ ct p) := by
      rw [lookupFile_setFile_self, setFile_setFile]
      rfl
    rw [copyLoop, hrd]
    simp only []
    rw [hstep, ih st (acc ++ ct p) out
      (fun hm => hout (List.mem_cons_of_mem p hm))
      (fun q hq => hread q (List.mem_cons_of_mem p hq))]
    simp [List.append_assoc]

theorem copyLoop_fail :
    ∀ (paths : List FPath) (st : FSState) (out : FPath),
    (∃ p ∈ paths, p ∈ st.ioerr) →
    copyLoop st paths out = (false, eraseFile st out) := by
  intro paths
  induction paths with
  | nil =>
    intro st out h
    obtain ⟨p, hp, _⟩ := h
    simp at hp
  | cons p rest ih =>
    intro st out h
    rcases hrd : readFile st p with _ | c
    · rw [copyLoop, hrd]
    · have hpio : p ∉ st.ioerr := by
        intro hmem
        unfold readFile at hrd
        rw [if_pos hmem] at hrd
        exact Option.noConfusion hrd
      obtain ⟨q, hq, hqio⟩ := h
      have hqrest : q ∈ rest := by
        rcases List.mem_cons.mp hq with rfl | hm
        · exact absurd hqio hpio
        · exact hm
      rw [copyLoop, hrd]
      simp only []
      rw [ih (setFile st out ((lookupFile st out).getD [] ++ c)) out
        ⟨q, hqrest, hqio⟩, eraseFile_setFile]

/-! ### Extension handling and gzip check -/

/-- The name after the last `/` of a path. -/
def lastComponent (p : FPath) : FPath := (p.reverse.takeWhile notSlash).reverse

/-- The extension part of `os.path.splitext(p)` (with its dot): the suffix
after the last dot of the final component, unless that component has only
leading dots. -/
def splitextSuffix (p : FPath) : FPath :=
  let base := lastComponent p
  let lead := base.takeWhile (fun c => c == '.')
  let rest := base.drop lead.length
  if '.' ∈ rest then '.' :: (rest.reverse.takeWhile (fun c => !(c == '.'))).reverse
  else []

/-- `str.lower()` (ASCII case folding suffices for the compared literals). -/
def lowerStr (p : FPath) : FPath := p.map Char.toLower

/-- `is_gzip_file(filename)`: the lowercased extension is `.gz` or `.tgz`. -/
def is_gzip_file (filename : FPath) : Bool :=
  decide (lowerStr (splitextSuffix filename) = ".gz".data) ||
    decide (lowerStr (splitextSuffix filename) = ".tgz".data)

/-- `gzip_test(filename)`: read up to 1MB of decompressed output, `False` on
`IOError`. The gzip library itself is the oracle `gz`; a missing or
unreadable file also raises `IOError`, hence `false`. -/
def gzip_test (gz : List Byte → Bool) (st : FSState) (filename : FPath) : Bool :=
  match readFile st filename with
  | some c => gz c
  | none => false

/-! ### `remove_from_uploads` -/

/-- `p` lies strictly below directory `dir`. -/
def isUnder (dir p : FPath) : Bool := decide (p.take (dir.length + 1) = dir ++ ['/'])

/-- `p` is a direct child of directory `dir`. -/
def dChild (dir p : FPath) : Bool :=
  isUnder dir p && decide ('/' ∉ p.drop (dir.length + 1))

/-- `remove_from_uploads(tempdir)`: `os.listdir`, `os.remove` every entry,
then `os.rmdir(tempdir)`, all under one `except OSError: pass`. A missing
directory aborts at `listdir`; a subdirectory entry makes `os.remove`
raise, so `rmdir` is never reached (upload directories hold only plain
files); `os.rmdir` succeeds because every entry was just removed. -/
def remove_from_uploads (st : FSState) (tempdir : FPath) : FSState :=
  if tempdir ∈ st.dirs then
    let files' := st.files.filter (fun e => !(dChild tempdir e.1))
    if st.dirs.any (fun d => dChild tempdir d) then
      { st with files := files' }
    else
      { st with files := files', dirs := st.dirs.filter (fun d => !(d == tempdir)) }
  else st

/-! ### Database records (`server/models.py` is not part of src/) -/

/-- Modelled from the spec: the Upload/`File` record persisted by the store;
`models.py` is absent from src/, so only the columns the verified
operations read or write are carried (identifier, status, end date). -/
structure FileRec where
  identifier : FPath
  upload_status : String
  upload_end_date : Option Int
  deriving DecidableEq

/-- The in-place mutation `update_file_status` performs on a matched record:
set the status, and stamp the end date for any status other than
`'ongoing'`. -/
def applyStatus (f : FileRec) (status : String) (now : Int) : FileRec :=
  { f with
    upload_status := status
    upload_end_date := if status ≠ "ongoing" then some now else f.upload_end_date }

/-- `update_file_status(identifier, status)`: update the first record whose
`identifier` matches (`File.query.filter_by(...).first()`); a silent no-op
when none does. -/
def update_file_status (db : List FileRec) (identifier : FPath) (status : String)
    (now : Int) : List FileRec :=
  match db with
  | [] => []
  | f :: rest =>
    if f.identifier = identifier then applyStatus f status now :: rest
    else f :: update_file_status rest identifier status now

/-- Modelled from the spec: the `Access` (bearer token) record. -/
structure AccessRec where
  auth_token : List Char
  creation_date : Int
  expiration_date : Int
  user_id : String
  deriving DecidableEq

/-- Modelled from the spec: the `Server` record (caller scope). -/
structure ServerRec where
  server_token : String
  server_id : String
  deriving DecidableEq

/-- Modelled from the spec: the `User` (identity) record. -/
structure UserRec where
  user_id : String
  user_name : Option String
  user_email : Option String
  deriving DecidableEq

/-- The persistent auth store. -/
structure AuthDB where
  servers : List ServerRec
  users : List UserRec
  accesses : List AccessRec
  deriving DecidableEq

/-- `get_auth_status(auth_token)`. -/
def get_auth_status (accesses : List AccessRec) (auth_token : List Char)
    (now : Int) : String :=
  match accesses.find? (fun a => a.auth_token == auth_token) with
  | none => "not found"
  | some access => if now > access.expiration_date then "expired" else "valid"

/-! ### Token issuance (`generate_auth_token`) -/

/-- The urlsafe base64 alphabet (RFC 4648 §5). -/
def base64UrlAlphabet : List Char :=
  "ABCDEFGHIJKLMNOPQRSTUVWXYZabcdefghijklmnopqrstuvwxyz0123456789-_".data

def b64Char (i : Nat) : Char := base64UrlAlphabet.getD i '='

/-- `base64.urlsafe_b64encode` on a byte string (bytes `< 256`): three bytes
become four alphabet characters, a final group of one or two bytes is
padded with `=`. -/
def base64urlEncode : List Byte → List Char
  | [] => []
  | [b1] => [b64Char (b1 / 4), b64Char (b1 % 4 * 16), '=', '=']
  | [b1, b2] =>
    [b64Char (b1 / 4), b64Char (b1 % 4 * 16 + b2 / 16), b64Char (b2 % 16 * 4), '=']
  | b1 :: b2 :: b3 :: rest =>
    b64Char (b1 / 4) :: b64Char (b1 % 4 * 16 + b2 / 16) ::
      b64Char (b2 % 16 * 4 + b3 / 64) :: b64Char (b3 % 64) :: base64urlEncode rest

/-- One day of `datetime` ticks (seconds). -/
def DAY_TICKS : Int := 86400

/-- The default of the `duration_days=1` parameter of `generate_auth_token`. -/
def DEFAULT_DURATION_DAYS : Int := 1

/-- `generate_auth_token(server_token, username, name, email, duration_days)`.
`urandom k` stands for `os.urandom(k)`, a fresh random byte string of
length `k`; the source requests 12 bytes. Raises `InvalidServerToken` for
an unknown server token; otherwise creates the user on first sight and
persists a new `Access` record. -/
def generate_auth_token (adb : AuthDB) (urandom : Nat → List Byte)
    (server_token username : String) (name email : Option String)
    (duration_days : Int) (now : Int) :
    Except PyErr ((List Char × Int) × AuthDB) :=
  match adb.servers.find? (fun s => s.server_token == server_token) with
  | none => .error .invalidServerToken
  | some server =>
    let user_id := server.server_id ++ "/" ++ username
    let users' :=
      if (adb.users.find? (fun u => u.user_id == user_id)).isSome then adb.users
      else adb.users ++ [⟨user_id, name, email⟩]
    let auth_token := base64urlEncode (urandom 12)
    let current_date := now
    let expiry_date := current_date + duration_days * DAY_TICKS
    let access : AccessRec := ⟨auth_token, current_date, expiry_date, user_id⟩
    .ok ((auth_token, expiry_date),
      { adb with users := users', accesses := adb.accesses ++ [access] })

/-! ### Finalize (`generate_file`) -/

/-- The fields of the request payload `data` that `generate_file` reads. -/
structure GenData where
  auth_token : FPath
  identifier : FPath
  filename : FPath
  total_size : Nat
  deriving DecidableEq

/-- `return_message(message, status_code)`: the structured
`{message, status_code}` response. -/
def return_message (message : String) (status_code : Nat) : String × Nat :=
  (message, status_code)

/-- The observable outcome of one `generate_file` call: the structured
response, the filesystem, the file table, and (ghost instrumentation, not
part of the Python return value) whether `merge_chunks` was invoked. -/
structure GenOut where
  resp : String × Nat
  fs : FSState
  db : List FileRec
  calledMerge : Bool
  deriving DecidableEq

/-- The integrity-check tail of `generate_file` (source lines 201-212),
entered with the merged file expected at `merged_file`: the gzip container
check, then the declared-size check, then success. -/
def checksPhase (gz : List Byte → Bool) (st : FSState) (db : List FileRec)
    (data : GenData) (temp_dir merged_file : FPath) (now : Int)
    (calledMerge : Bool) : Except PyErr GenOut :=
  if is_gzip_file data.filename && !(gzip_test gz st merged_file) then
    .ok ⟨return_message "Error: Truncated GZIP file" 415,
      remove_from_uploads st temp_dir,
      update_file_status db data.identifier "corrupt" now, calledMerge⟩
  else
    match getsize st merged_file with
    | none => .error .osError
    | some size =>
      if size ≠ data.total_size then
        .ok ⟨return_message "Error: Inconsistent merged file size" 415,
          eraseFile st merged_file, db, calledMerge⟩
      else
        .ok ⟨return_message "Success: File upload completed successfully" 200,
          st, update_file_status db data.identifier "complete" now, calledMerge⟩

/-- `generate_file(data)`: compute the upload directory, glob the chunks,
merge them unless the merged file already exists, then run the integrity
checks. -/
def generate_file (gz : List Byte → Bool) (upload_folder : FPath) (st : FSState)
    (db : List FileRec) (data : GenData) (now : Int) : Except PyErr GenOut :=
  let temp_dir := get_tempdir upload_folder [data.auth_token, data.identifier]
  let merged_file := pathJoin temp_dir data.filename
  if isfile st merged_file then
    checksPhase gz st db data temp_dir merged_file now false
  else
    match merge_chunks st (get_file_chunks st temp_dir) data.filename with
    | .error e => .error e
    | .ok (true, st₁) => checksPhase gz st₁ db data temp_dir merged_file now true
    | .ok (false, st₁) =>
      .ok ⟨return_message "Error: File could not be merged" 500, st₁,
        update_file_status db data.identifier "unmerged" now, true⟩

/-- The first half of `generate_file`: the filesystem state (and whether a
merge ran) in which the integrity checks are entered, if they are. -/
def reachesChecks (upload_folder : FPath) (st : FSState) (data : GenData) :
    Option (FSState × Bool) :=
  let temp_dir := get_tempdir upload_folder [data.auth_token, data.identifier]
  let merged_file := pathJoin temp_dir data.filename
  if isfile st merged_file then some (st, false)
  else
    match merge_chunks st (get_file_chunks st temp_dir) data.filename with
    | .ok (true, st₁) => some (st₁, true)
    | _ => none

theorem generate_file_eq_checksPhase {upload_folder : FPath} {st st₁ : FSState}
    {data : GenData} {flag : Bool}
    (h : reachesChecks upload_folder st data = some (st₁, flag))
    (gz : List Byte → Bool) (db : List FileRec) (now : Int) :
    generate_file gz upload_folder st db data now =
      checksPhase gz st₁ db data
        (get_tempdir upload_folder [data.auth_token, data.identifier])
        (pathJoin (get_tempdir upload_folder [data.auth_token, data.identifier])
          data.filename) now flag := by
  unfold generate_file reachesChecks at *
  by_cases hf : isfile st (pathJoin
      (get_tempdir upload_folder [data.auth_token, data.identifier])
      data.filename)
  · rw [if_pos hf] at h ⊢
    obtain ⟨h1, h2⟩ : st = st₁ ∧ false = flag := by
      have := Option.some.inj h
      exact ⟨congrArg Prod.fst this, congrArg Prod.snd this⟩
    rw [← h1, ← h2]
  · rw [if_neg hf] at h ⊢
    rcases hm : merge_chunks st (get_file_chunks st
        (get_tempdir upload_folder [data.auth_token, data.identifier]))
        data.filename with e | ⟨ok, st'⟩
    · rw [hm] at h
      simp at h
    · rw [hm] at h
      cases ok with
      | true =>
        simp only [] at h
        obtain ⟨h1, h2⟩ : st' = st₁ ∧ true = flag := by
          have := Option.some.inj h
          exact ⟨congrArg Prod.fst this, congrArg Prod.snd this⟩
        rw [← h1, ← h2]
      | false => simp at h

theorem merge_chunks_eq_of_sorted {st : FSState} {chunk_paths : List FPath}
    {filename p0 : FPath} {rest : List FPath}
    (h : List.insertionSort pyLe chunk_paths = p0 :: rest) :
    merge_chunks st chunk_paths filename =
      .ok (copyLoop (setFile st (pathJoin (dirname (realpath p0)) filename) [])
        (p0 :: rest) (pathJoin (dirname (realpath p0)) filename)) := by
  unfold merge_chunks
  split
  · next heq => rw [h] at heq; exact List.noConfusion heq
  · next q0 qrest heq =>
    rw [h] at heq
    obtain ⟨rfl, rfl⟩ := List.cons.injEq _ _ _ _ ▸ heq
    rfl

/-- C1: for a non-empty set of chunk files named by `get_chunk_filename`
with the distinct sequence numbers `0 .. N-1` (each below `10^8`), handed
to `merge_chunks` in any order, the merge succeeds and writes the file
`filename` in the chunk directory with contents equal to the concatenation
of the chunks in ascending numeric sequence order (lexicographic sorting
of the fixed-width names being numeric sorting). -/
theorem claim_C1 (temp_dir : FPath) (hdir : temp_dir.getLast? ≠ some '/')
    (N : Nat) (hN : 0 < N) (hN8 : N ≤ 100000000)
    (seqs : List Nat) (hperm : seqs.Perm (List.range N))
    (st : FSState) (ct : Nat → List Byte) (filename : FPath)
    (hread : ∀ i, i < N → readFile st (get_chunk_filename temp_dir i) = some (ct i))
    (hout : ∀ i, i < N →
      ¬ pathJoin temp_dir filename = get_chunk_filename temp_dir i) :
    merge_chunks st (seqs.map (get_chunk_filename temp_dir)) filename =
      .ok (true, setFile st (pathJoin temp_dir filename)
        (((List.range N).map ct).flatten)) := by
  have hsort : List.insertionSort pyLe (seqs.map (get_chunk_filename temp_dir)) =
      (List.range N).map (get_chunk_filename temp_dir) :=
    insertionSort_chunk_filenames hN8 hperm
  obtain ⟨m, rfl⟩ : ∃ m, N = m + 1 := ⟨N - 1, by omega⟩
  have hcons : (List.range (m + 1)).map (get_chunk_filename temp_dir) =
      get_chunk_filename temp_dir 0 ::
        ((List.range m).map Nat.succ).map (get_chunk_filename temp_dir) := by
    rw [List.range_succ_eq_map, List.map_cons]
  have hd0 : dirname (realpath (get_chunk_filename temp_dir 0)) = temp_dir := by
    show dirname (get_chunk_filename temp_dir 0) = temp_dir
    unfold get_chunk_filename
    exact dirname_pathJoin hdir (by simp [CHUNK_PREFIX]) (no_slash_chunk_name 0)
  rw [merge_chunks_eq_of_sorted (hcons ▸ hsort), hd0, ← hcons]
  have hmem : ∀ p ∈ (List.range (m + 1)).map (get_chunk_filename temp_dir),
      ∃ i, i < m + 1 ∧ p = get_chunk_filename temp_dir i := by
    intro p hp
    obtain ⟨i, hi, rfl⟩ := List.mem_map.mp hp
    exact ⟨i, List.mem_range.mp hi, rfl⟩
  have houtmem : pathJoin temp_dir filename ∉
      (List.range (m + 1)).map (get_chunk_filename temp_dir) := by
    intro hmem'
    obtain ⟨i, hi, he⟩ := hmem _ hmem'
    exact hout i hi he
  have hreads : ∀ p ∈ (List.range (m + 1)).map (get_chunk_filename temp_dir),
      readFile st p = some ((fun q => (readFile st q).getD []) p) := by
    intro p hp
    obtain ⟨i, hi, rfl⟩ := hmem _ hp
    have h := hread i hi
    simp only [h, Option.getD_some]
  rw [copyLoop_ok (fun q => (readFile st q).getD []) _ st [] _ houtmem hreads]
  have hflat : (((List.range (m + 1)).map (get_chunk_filename temp_dir)).map
      (fun q => (readFile st q).getD [])).flatten =
      ((List.range (m + 1)).map ct).flatten := by
    rw [List.map_map]
    congr 1
    refine List.map_congr_left ?_
    intro i hi
    simp only [Function.comp]
    rw [hread i (List.mem_range.mp hi)]
    rfl
  rw [hflat, List.nil_append]

/-- Witness for C1 at a concrete input: directory `d`, chunks `1, 0` given
out of order, contents `[1]` and `[0]`, output file `f`. -/
theorem claim_C1_witness :
    merge_chunks
      ⟨[("d/chunk.00000000".data, [0]), ("d/chunk.00000001".data, [1])], [], []⟩
      ([1, 0].map (get_chunk_filename "d".data)) "f".data =
      .ok (true, setFile
        ⟨[("d/chunk.00000000".data, [0]), ("d/chunk.00000001".data, [1])], [], []⟩
        (pathJoin "d".data "f".data)
        (((List.range 2).map (fun i => [i])).flatten)) :=
  claim_C1 "d".data (by decide) 2 (by decide) (by decide) [1, 0] (by decide)
    ⟨[("d/chunk.00000000".data, [0]), ("d/chunk.00000001".data, [1])], [], []⟩
    (fun i => [i]) "f".data (by decide) (by decide)

/-- C2: `get_auth_status` returns exactly one of `not found`, `expired`,
`valid` and nothing else: `not found` iff no access record matches the
token, `expired` iff a record matches and the current time is strictly
past its expiration date, `valid` otherwise. -/
theorem claim_C2 (accesses : List AccessRec) (token : List Char) (now : Int) :
    (get_auth_status accesses token now = "not found" ∨
      get_auth_status accesses token now = "expired" ∨
      get_auth_status accesses token now = "valid") ∧
    (get_auth_status accesses token now = "not found" ↔
      accesses.find? (fun a => a.auth_token == token) = none) ∧
    (get_auth_status accesses token now = "expired" ↔
      ∃ a, accesses.find? (fun a => a.auth_token == token) = some a ∧
        now > a.expiration_date) ∧
    (get_auth_status accesses token now = "valid" ↔
      ∃ a, accesses.find? (fun a => a.auth_token == token) = some a ∧
        ¬ now > a.expiration_date) := by
  rcases h : accesses.find? (fun a => a.auth_token == token) with _ | a
  · have hg : get_auth_status accesses token now = "not found" := by
      simp [get_auth_status, h]
    rw [hg]
    refine ⟨Or.inl rfl, ⟨fun _ => h, fun _ => rfl⟩, ?_, ?_⟩
    · constructor
      · intro hc
        exact absurd hc (by decide)
      · rintro ⟨b, hb, _⟩
        rw [h] at hb
        exact Option.noConfusion hb
    · constructor
      · intro hc
        exact absurd hc (by decide)
      · rintro ⟨b, hb, _⟩
        rw [h] at hb
        exact Option.noConfusion hb
  · by_cases hexp : now > a.expiration_date
    · have hg : get_auth_status accesses token now = "expired" := by
        simp [get_auth_status, h, hexp]
      rw [hg]
      refine ⟨Or.inr (Or.inl rfl), ?_, ?_, ?_⟩
      · constructor
        · intro hc
          exact absurd hc (by decide)
        · intro hc
          rw [h] at hc
          exact Option.noConfusion hc
      · exact ⟨fun _ => ⟨a, h, hexp⟩, fun _ => rfl⟩
      · constructor
        · intro hc
          exact absurd hc (by decide)
        · rintro ⟨b, hb, hbe⟩
          rw [h] at hb
          obtain rfl := Option.some.inj hb
          exact absurd hexp hbe
    · have hg : get_auth_status accesses token now = "valid" := by
        simp [get_auth_status, h, hexp]
      rw [hg]
      refine ⟨Or.inr (Or.inr rfl), ?_, ?_, ?_⟩
      · constructor
        · intro hc
          exact absurd hc (by decide)
        · intro hc
          rw [h] at hc
          exact Option.noConfusion hc
      · constructor
        · intro hc
          exact absurd hc (by decide)
        · rintro ⟨b, hb, hbe⟩
          rw [h] at hb
          obtain rfl := Option.some.inj hb
          exact absurd hbe hexp
      · exact ⟨fun _ => ⟨a, h, hexp⟩, fun _ => rfl⟩

/-- C5: when the merged output file already exists at the canonical path,
`generate_file` never invokes `merge_chunks` (the ghost `calledMerge` flag
stays `false`) and its outcome is exactly the integrity-check phase run on
the unchanged filesystem. -/
theorem claim_C5 (gz : List Byte → Bool) (upload_folder : FPath) (st : FSState)
    (db : List FileRec) (data : GenData) (now : Int)
    (hfile : isfile st (pathJoin
      (get_tempdir upload_folder [data.auth_token, data.identifier])
      data.filename) = true) :
    generate_file gz upload_folder st db data now =
      checksPhase gz st db data
        (get_tempdir upload_folder [data.auth_token, data.identifier])
        (pathJoin (get_tempdir upload_folder [data.auth_token, data.identifier])
          data.filename) now false ∧
    (∀ o, generate_file gz upload_folder st db data now = .ok o →
      o.calledMerge = false) := by
  have h1 : generate_file gz upload_folder st db data now =
      checksPhase gz st db data
        (get_tempdir upload_folder [data.auth_token, data.identifier])
        (pathJoin (get_tempdir upload_folder [data.auth_token, data.identifier])
          data.filename) now false := by
    unfold generate_file
    rw [if_pos hfile]
  refine ⟨h1, fun o ho => ?_⟩
  rw [h1] at ho
  unfold checksPhase at ho
  split at ho
  · obtain rfl := Except.ok.inj ho
    rfl
  · split at ho
    · exact Except.noConfusion ho
    · split at ho
      · obtain rfl := Except.ok.inj ho
        rfl
      · obtain rfl := Except.ok.inj ho
        rfl

theorem readFile_some_lookup {st : FSState} {p : FPath} {c : List Byte}
    (h : readFile st p = some c) : lookupFile st p = some c := by
  unfold readFile at h
  by_cases hm : p ∈ st.ioerr
  · rw [if_pos hm] at h
    exact Option.noConfusion h
  · rwa [if_neg hm] at h

theorem lookupFS_filter_none {pred : FPath × List Byte → Bool}
    {fs : List (FPath × List Byte)} {p : FPath}
    (h : ∀ v, (p, v) ∈ fs → pred (p, v) = false) :
    lookupFS (fs.filter pred) p = none := by
  induction fs with
  | nil => rfl
  | cons e rest ih =>
    obtain ⟨q, w⟩ := e
    have ih' := ih (fun v hv => h v (List.mem_cons_of_mem _ hv))
    by_cases hq : q = p
    · subst hq
      rw [List.filter_cons, if_neg (by simp [h w (List.mem_cons_self _ _)])]
      exact ih'
    · rw [List.filter_cons]
      by_cases hp : pred (q, w) = true
      · rw [if_pos (by simp [hp])]
        simpa [lookupFS, hq] using ih'
      · rw [if_neg (by simpa using hp)]
        exact ih'

theorem lookupFS_filter_keep {pred : FPath × List Byte → Bool}
    {fs : List (FPath × List Byte)} {p : FPath}
    (h : ∀ v, (p, v) ∈ fs → pred (p, v) = true) :
    lookupFS (fs.filter pred) p = lookupFS fs p := by
  induction fs with
  | nil => rfl
  | cons e rest ih =>
    obtain ⟨q, w⟩ := e
    have ih' := ih (fun v hv => h v (List.mem_cons_of_mem _ hv))
    by_cases hq : q = p
    · subst hq
      rw [List.filter_cons, if_pos (by simp [h w (List.mem_cons_self _ _)])]
      simp [lookupFS, ih']
    · rw [List.filter_cons]
      by_cases hp : pred (q, w) = true
      · rw [if_pos (by simp [hp])]
        simpa [lookupFS, hq] using ih'
      · rw [if_neg (by simpa using hp)]
        rw [ih']
        simp [lookupFS, hq]

/-- Under the layout invariants of an upload directory (it exists, has no
subdirectories, and every file under it is a direct child),
`remove_from_uploads` deletes every file under it, removes the directory,
and leaves everything outside it alone. -/
theorem remove_from_uploads_clears (st : FSState) (tempdir : FPath)
    (htd : tempdir ∈ st.dirs)
    (hnosub : ∀ d ∈ st.dirs, dChild tempdir d = false)
    (hnonest : ∀ e ∈ st.files, isUnder tempdir e.1 = true →
      dChild tempdir e.1 = true) :
    (∀ p, isUnder tempdir p = true →
      lookupFile (remove_from_uploads st tempdir) p = none) ∧
    tempdir ∉ (remove_from_uploads st tempdir).dirs ∧
    (∀ p, isUnder tempdir p = false →
      lookupFile (remove_from_uploads st tempdir) p = lookupFile st p) := by
  have hany : st.dirs.any (fun d => dChild tempdir d) = false := by
    rw [List.any_eq_false]
    intro d hd
    simp [hnosub d hd]
  unfold remove_from_uploads
  rw [if_pos htd, if_neg (by simp [hany])]
  refine ⟨?_, ?_, ?_⟩
  · intro p hp
    refine lookupFS_filter_none (fun v hv => ?_)
    have := hnonest (p, v) hv hp
    simp [this]
  · intro hmem
    rw [List.mem_filter] at hmem
    simp at hmem
  · intro p hp
    refine lookupFS_filter_keep (fun v hv => ?_)
    have : dChild tempdir p = false := by
      unfold dChild
      simp [hp]
    simp [this]

/-- `update_file_status` rewrites exactly the first matching record, as seen
through `find?` on the identifier. -/
theorem find?_update_file_status (db : List FileRec) (identifier : FPath)
    (status : String) (now : Int) :
    (update_file_status db identifier status now).find?
        (fun r => r.identifier == identifier) =
      (db.find? (fun r => r.identifier == identifier)).map
        (fun f => applyStatus f status now) := by
  induction db with
  | nil => rfl
  | cons f rest ih =>
    by_cases h : f.identifier = identifier
    · rw [update_file_status, if_pos h]
      rw [List.find?_cons_of_pos _ (by simp [applyStatus, h]),
        List.find?_cons_of_pos _ (by simp [h])]
      rfl
    · rw [update_file_status, if_neg h]
      rw [List.find?_cons_of_neg _ (by simp [h]),
        List.find?_cons_of_neg _ (by simp [h])]
      exact ih

/-- C4: a finalize call on a gzip-named file (`.gz`/`.tgz`, case-insensitive)
whose merged content fails the gzip readability check deletes every file
under the upload directory and the directory itself, records status
`corrupt` (with an end timestamp) on the matching upload record, and
returns the 415 truncated-gzip response; conversely, when the content
passes the gzip check, the call moves on to the size check (size mismatch
or success), so the container check never rejects it. -/
theorem claim_C4 (gz : List Byte → Bool) (upload_folder : FPath)
    (st st₁ : FSState) (db : List FileRec) (data : GenData) (now : Int)
    (flag : Bool) (c : List Byte) (temp_dir : FPath)
    (hteq : temp_dir = get_tempdir upload_folder [data.auth_token, data.identifier])
    (hreach : reachesChecks upload_folder st data = some (st₁, flag))
    (hgzext : is_gzip_file data.filename = true)
    (hcontent : readFile st₁ (pathJoin temp_dir data.filename) = some c)
    (htd : temp_dir ∈ st₁.dirs)
    (hnosub : ∀ d ∈ st₁.dirs, dChild temp_dir d = false)
    (hnonest : ∀ e ∈ st₁.files, isUnder temp_dir e.1 = true →
      dChild temp_dir e.1 = true) :
    (gz c = false →
      generate_file gz upload_folder st db data now =
        .ok ⟨return_message "Error: Truncated GZIP file" 415,
          remove_from_uploads st₁ temp_dir,
          update_file_status db data.identifier "corrupt" now, flag⟩ ∧
      (∀ p, isUnder temp_dir p = true →
        lookupFile (remove_from_uploads st₁ temp_dir) p = none) ∧
      temp_dir ∉ (remove_from_uploads st₁ temp_dir).dirs ∧
      (∀ f₀, db.find? (fun r => r.identifier == data.identifier) = some f₀ →
        (update_file_status db data.identifier "corrupt" now).find?
            (fun r => r.identifier == data.identifier) =
          some (applyStatus f₀ "corrupt" now) ∧
        (applyStatus f₀ "corrupt" now).upload_status = "corrupt" ∧
        (applyStatus f₀ "corrupt" now).upload_end_date = some now)) ∧
    (gz c = true →
      generate_file gz upload_folder st db data now =
        .ok (if c.length ≠ data.total_size then
          ⟨return_message "Error: Inconsistent merged file size" 415,
            eraseFile st₁ (pathJoin temp_dir data.filename), db, flag⟩
        else
          ⟨return_message "Success: File upload completed successfully" 200,
            st₁, update_file_status db data.identifier "complete" now, flag⟩)) := by
  subst hteq
  have hgen := generate_file_eq_checksPhase hreach gz db now
  have hgt : gzip_test gz st₁
      (pathJoin (get_tempdir upload_folder [data.auth_token, data.identifier])
        data.filename) = gz c := by
    unfold gzip_test
    rw [hcontent]
  have hsize : getsize st₁
      (pathJoin (get_tempdir upload_folder [data.auth_token, data.identifier])
        data.filename) = some c.length := by
    unfold getsize
    rw [readFile_some_lookup hcontent]
    rfl
  constructor
  · intro hgzfail
    have hcond : (is_gzip_file data.filename &&
        !(gzip_test gz st₁
          (pathJoin (get_tempdir upload_folder [data.auth_token, data.identifier])
            data.filename))) = true := by
      rw [hgzext, hgt, hgzfail]
      rfl
    refine ⟨?_, ?_⟩
    · rw [hgen]
      unfold checksPhase
      rw [if_pos hcond]
    · obtain ⟨h1, h2, _⟩ := remove_from_uploads_clears st₁ _ htd hnosub hnonest
      refine ⟨h1, h2, fun f₀ hf₀ => ?_⟩
      refine ⟨?_, rfl, rfl⟩
      rw [find?_update_file_status, hf₀]
      rfl
  · intro hgzok
    have hcond : (is_gzip_file data.filename &&
        !(gzip_test gz st₁
          (pathJoin (get_tempdir upload_folder [data.auth_token, data.identifier])
            data.filename))) = false := by
      rw [hgzext, hgt, hgzok]
      rfl
    rw [hgen]
    unfold checksPhase
    rw [if_neg (by simp [hcond]), hsize]
    by_cases hlen : c.length ≠ data.total_size
    · simp [hlen]
    · simp [hlen, not_ne_iff.mp hlen]

/-- The concrete filesystem of the C4 witness: one chunk and a merged
`f.gz` whose single byte is not a gzip stream. -/
def stC4 : FSState :=
  ⟨[("u/t/i/chunk.00000000".data, [0]), ("u/t/i/f.gz".data, [0])],
    ["u/t/i".data], []⟩

/-- The request payload of the C4 witness. -/
def dataC4 : GenData := ⟨"t".data, "i".data, "f.gz".data, 5⟩

/-- Witness for C4: with a gzip oracle rejecting the content, the corrupt
branch fires at the concrete input. -/
theorem claim_C4_witness :
    ((fun _ => false : List Byte → Bool) [0] = false →
      generate_file (fun _ => false) "u".data stC4 [⟨"i".data, "ongoing", none⟩]
          dataC4 0 =
        .ok ⟨return_message "Error: Truncated GZIP file" 415,
          remove_from_uploads stC4 "u/t/i".data,
          update_file_status [⟨"i".data, "ongoing", none⟩] "i".data "corrupt" 0,
          false⟩ ∧
      (∀ p, isUnder "u/t/i".data p = true →
        lookupFile (remove_from_uploads stC4 "u/t/i".data) p = none) ∧
      "u/t/i".data ∉ (remove_from_uploads stC4 "u/t/i".data).dirs ∧
      (∀ f₀, List.find? (fun r => r.identifier == dataC4.identifier)
          [⟨"i".data, "ongoing", none⟩] = some f₀ →
        (update_file_status [⟨"i".data, "ongoing", none⟩] "i".data
            "corrupt" 0).find? (fun r => r.identifier == dataC4.identifier) =
          some (applyStatus f₀ "corrupt" 0) ∧
        (applyStatus f₀ "corrupt" 0).upload_status = "corrupt" ∧
        (applyStatus f₀ "corrupt" 0).upload_end_date = some 0)) ∧
    ((fun _ => false : List Byte → Bool) [0] = true →
      generate_file (fun _ => false) "u".data stC4 [⟨"i".data, "ongoing", none⟩]
          dataC4 0 =
        .ok (if List.length [0] ≠ dataC4.total_size then
          ⟨return_message "Error: Inconsistent merged file size" 415,
            eraseFile stC4 (pathJoin "u/t/i".data dataC4.filename),
            [⟨"i".data, "ongoing", none⟩], false⟩
        else
          ⟨return_message "Success: File upload completed successfully" 200,
            stC4, update_file_status [⟨"i".data, "ongoing", none⟩] "i".data
              "complete" 0, false⟩)) :=
  claim_C4 (fun _ => false) "u".data stC4 stC4 [⟨"i".data, "ongoing", none⟩]
    dataC4 0 false [0] "u/t/i".data (by decide) (by decide) (by decide)
    (by decide) (by decide) (by decide) (by decide)

/-- Witness for C5: the merged file already exists, so finalize goes
straight to the checks with no merge. -/
theorem claim_C5_witness :
    (generate_file (fun _ => true) "u".data ⟨[("u/t/i/f".data, [7])], [], []⟩ []
        ⟨"t".data, "i".data, "f".data, 1⟩ 0 =
      checksPhase (fun _ => true) ⟨[("u/t/i/f".data, [7])], [], []⟩ []
        ⟨"t".data, "i".data, "f".data, 1⟩
        (get_tempdir "u".data ["t".data, "i".data])
        (pathJoin (get_tempdir "u".data ["t".data, "i".data]) "f".data) 0
        false) ∧
    (∀ o, generate_file (fun _ => true) "u".data
        ⟨[("u/t/i/f".data, [7])], [], []⟩ []
        ⟨"t".data, "i".data, "f".data, 1⟩ 0 = .ok o →
      o.calledMerge = false) :=
  claim_C5 (fun _ => true) "u".data ⟨[("u/t/i/f".data, [7])], [], []⟩ []
    ⟨"t".data, "i".data, "f".data, 1⟩ 0 (by decide)

/-- The gzip oracle of the C3 counterexample: a stream without the gzip
magic `1f 8b` never decompresses, which is all this input needs. -/
def gzC3 : List Byte → Bool := fun c => decide (c.take 2 = [31, 139])

/-- The concrete filesystem of the C3 counterexample: one chunk fragment
and a merged `f.gz` of one byte (so its size, 1, differs from the declared
`total_size` 5) whose content is not a gzip stream. -/
def stC3 : FSState :=
  ⟨[("u/t/i/chunk.00000000".data, [0]), ("u/t/i/f.gz".data, [0])],
    ["u/t/i".data], []⟩

/-- The request payload of the C3 counterexample (`total_size = 5`). -/
def dataC3 : GenData := ⟨"t".data, "i".data, "f.gz".data, 5⟩

/-- Counterexample to C3 as stated: a finalize call whose merged file size
(1) differs from the declared `total_size` (5) nevertheless deletes the
chunk fragment and reports the truncated-gzip failure, because the file is
gzip-named and fails the container check, which runs first. -/
theorem claim_C3_counterexample :
    getsize stC3 (pathJoin "u/t/i".data dataC3.filename) = some 1 ∧
    dataC3.total_size = 5 ∧
    (generate_file gzC3 "u".data stC3 [] dataC3 0).toOption =
      some ⟨return_message "Error: Truncated GZIP file" 415,
        remove_from_uploads stC3 "u/t/i".data, [], false⟩ ∧
    lookupFile (remove_from_uploads stC3 "u/t/i".data)
      "u/t/i/chunk.00000000".data = none := by
  decide

/-- C3 as amended: when the container check does not reject the file (not
gzip-named, or gzip-readable) and the merged file's size differs from the
declared `total_size`, finalize reports the 415 size-mismatch failure,
deletes exactly the merged output (no other file, no directory), and
leaves the upload record table untouched, so the status is never advanced
to `complete`. -/
theorem claim_C3_amended (gz : List Byte → Bool) (upload_folder : FPath)
    (st st₁ : FSState) (db : List FileRec) (data : GenData) (now : Int)
    (flag : Bool) (sz : Nat) (temp_dir merged_file : FPath)
    (hteq : temp_dir = get_tempdir upload_folder [data.auth_token, data.identifier])
    (hmeq : merged_file = pathJoin temp_dir data.filename)
    (hreach : reachesChecks upload_folder st data = some (st₁, flag))
    (hnogz : ¬ (is_gzip_file data.filename = true ∧
      gzip_test gz st₁ merged_file = false))
    (hsz : getsize st₁ merged_file = some sz)
    (hmism : sz ≠ data.total_size) :
    generate_file gz upload_folder st db data now =
      .ok ⟨return_message "Error: Inconsistent merged file size" 415,
        eraseFile st₁ merged_file, db, flag⟩ ∧
    lookupFile (eraseFile st₁ merged_file) merged_file = none ∧
    (∀ q, ¬ q = merged_file →
      lookupFile (eraseFile st₁ merged_file) q = lookupFile st₁ q) ∧
    (eraseFile st₁ merged_file).dirs = st₁.dirs ∧
    (∀ o, generate_file gz upload_folder st db data now = .ok o → o.db = db) := by
  subst hteq
  subst hmeq
  have hgen := generate_file_eq_checksPhase hreach gz db now
  have hcond : (is_gzip_file data.filename &&
      !(gzip_test gz st₁
        (pathJoin (get_tempdir upload_folder [data.auth_token, data.identifier])
          data.filename))) = false := by
    rcases hgf : is_gzip_file data.filename with _ | _
    · rfl
    · rcases hgt : gzip_test gz st₁
          (pathJoin (get_tempdir upload_folder [data.auth_token, data.identifier])
            data.filename) with _ | _
      · exact absurd ⟨hgf, hgt⟩ hnogz
      · rfl
  have h1 : generate_file gz upload_folder st db data now =
      .ok ⟨return_message "Error: Inconsistent merged file size" 415,
        eraseFile st₁
          (pathJoin (get_tempdir upload_folder [data.auth_token, data.identifier])
            data.filename), db, flag⟩ := by
    rw [hgen]
    unfold checksPhase
    rw [if_neg (by simp [hcond]), hsz]
    simp [hmism]
  refine ⟨h1, lookupFS_eraseAssoc_self _ _, fun q hq => lookupFS_eraseAssoc_ne _ hq,
    rfl, fun o ho => ?_⟩
  rw [h1] at ho
  obtain rfl := Except.ok.inj ho
  rfl

/-- Witness for the amended C3: a one-byte merged file `f` declared as 5
bytes; the merged file is deleted, nothing else changes. -/
theorem claim_C3_witness :
    generate_file (fun _ => true) "u".data ⟨[("u/t/i/f".data, [9])],
        ["u/t/i".data], []⟩ [⟨"i".data, "ongoing", none⟩]
        ⟨"t".data, "i".data, "f".data, 5⟩ 0 =
      .ok ⟨return_message "Error: Inconsistent merged file size" 415,
        eraseFile ⟨[("u/t/i/f".data, [9])], ["u/t/i".data], []⟩ "u/t/i/f".data,
        [⟨"i".data, "ongoing", none⟩], false⟩ ∧
    lookupFile (eraseFile ⟨[("u/t/i/f".data, [9])], ["u/t/i".data], []⟩
        "u/t/i/f".data) "u/t/i/f".data = none ∧
    (∀ q, ¬ q = "u/t/i/f".data →
      lookupFile (eraseFile ⟨[("u/t/i/f".data, [9])], ["u/t/i".data], []⟩
          "u/t/i/f".data) q =
        lookupFile ⟨[("u/t/i/f".data, [9])], ["u/t/i".data], []⟩ q) ∧
    (eraseFile ⟨[("u/t/i/f".data, [9])], ["u/t/i".data], []⟩
        "u/t/i/f".data).dirs = (⟨[("u/t/i/f".data, [9])], ["u/t/i".data], []⟩ :
        FSState).dirs ∧
    (∀ o, generate_file (fun _ => true) "u".data ⟨[("u/t/i/f".data, [9])],
        ["u/t/i".data], []⟩ [⟨"i".data, "ongoing", none⟩]
        ⟨"t".data, "i".data, "f".data, 5⟩ 0 = .ok o →
      o.db = [⟨"i".data, "ongoing", none⟩]) :=
  claim_C3_amended (fun _ => true) "u".data
    ⟨[("u/t/i/f".data, [9])], ["u/t/i".data], []⟩
    ⟨[("u/t/i/f".data, [9])], ["u/t/i".data], []⟩
    [⟨"i".data, "ongoing", none⟩] ⟨"t".data, "i".data, "f".data, 5⟩ 0 false 1
    "u/t/i".data "u/t/i/f".data (by decide) (by decide) (by decide) (by decide)
    (by decide) (by decide)

/-- A path matched by the chunk glob in a well-formed directory has that
directory as its `dirname`. -/
theorem dirname_of_isChunkName {dir p : FPath} (hd : ¬ dir.getLast? = some '/')
    (h : isChunkName dir p = true) : dirname (realpath p) = dir := by
  unfold isChunkName at h
  rw [Bool.and_eq_true, decide_eq_true_eq, decide_eq_true_eq] at h
  obtain ⟨htake, hdrop⟩ := h
  have hp : p = (joinPre dir ++ CHUNK_PREFIX) ++
      p.drop (joinPre dir ++ CHUNK_PREFIX).length := by
    conv_lhs => rw [← List.take_append_drop (joinPre dir ++ CHUNK_PREFIX).length p]
    rw [htake]
  have hname : '/' ∉ CHUNK_PREFIX ++ p.drop (joinPre dir ++ CHUNK_PREFIX).length := by
    intro hm
    rcases List.mem_append.mp hm with hm | hm
    · revert hm
      decide
    · exact hdrop hm
  have hjoin : pathJoin dir (CHUNK_PREFIX ++
      p.drop (joinPre dir ++ CHUNK_PREFIX).length) = p := by
    rw [pathJoin_eq_joinPre (by simp [CHUNK_PREFIX]) (by simp [CHUNK_PREFIX]),
      ← List.append_assoc, ← hp]
  rw [show realpath p = p from rfl, ← hjoin]
  exact dirname_pathJoin hd (by simp [CHUNK_PREFIX]) hname

/-- Membership in the chunk glob result. -/
theorem isChunkName_of_mem_get_file_chunks {st : FSState} {temp_dir p : FPath}
    (h : p ∈ get_file_chunks st temp_dir) : isChunkName temp_dir p = true := by
  unfold get_file_chunks at h
  exact List.of_mem_filter h

/-- C6: when some chunk read fails with `IOError`, `merge_chunks` reports
failure and removes the partially written output, leaving no file at the
canonical merged path and touching nothing else; `generate_file` then
answers the 500 merge-failure response and records status `unmerged` on
the matching upload record. -/
theorem claim_C6 (gz : List Byte → Bool) (upload_folder : FPath) (st : FSState)
    (db : List FileRec) (data : GenData) (now : Int) (temp_dir : FPath)
    (hteq : temp_dir = get_tempdir upload_folder [data.auth_token, data.identifier])
    (hdirwf : ¬ temp_dir.getLast? = some '/')
    (hnofile : isfile st (pathJoin temp_dir data.filename) = false)
    (hchunks : get_file_chunks st temp_dir ≠ [])
    (hfail : ∃ p ∈ get_file_chunks st temp_dir, p ∈ st.ioerr) :
    merge_chunks st (get_file_chunks st temp_dir) data.filename =
      .ok (false, eraseFile st (pathJoin temp_dir data.filename)) ∧
    lookupFile (eraseFile st (pathJoin temp_dir data.filename))
      (pathJoin temp_dir data.filename) = none ∧
    (∀ q, ¬ q = pathJoin temp_dir data.filename →
      lookupFile (eraseFile st (pathJoin temp_dir data.filename)) q =
        lookupFile st q) ∧
    generate_file gz upload_folder st db data now =
      .ok ⟨return_message "Error: File could not be merged" 500,
        eraseFile st (pathJoin temp_dir data.filename),
        update_file_status db data.identifier "unmerged" now, true⟩ ∧
    (∀ f₀, db.find? (fun r => r.identifier == data.identifier) = some f₀ →
      (update_file_status db data.identifier "unmerged" now).find?
          (fun r => r.identifier == data.identifier) =
        some (applyStatus f₀ "unmerged" now) ∧
      (applyStatus f₀ "unmerged" now).upload_status = "unmerged") := by
  rcases hs : List.insertionSort pyLe (get_file_chunks st temp_dir) with _ | ⟨p0, rest⟩
  · exfalso
    have hperm := List.perm_insertionSort pyLe (get_file_chunks st temp_dir)
    rw [hs] at hperm
    exact hchunks hperm.nil_eq.symm
  · have hp0mem : p0 ∈ get_file_chunks st temp_dir := by
      have hperm := List.perm_insertionSort pyLe (get_file_chunks st temp_dir)
      rw [hs] at hperm
      exact hperm.mem_iff.mp (List.mem_cons_self p0 rest)
    have hout : pathJoin (dirname (realpath p0)) data.filename =
        pathJoin temp_dir data.filename := by
      rw [dirname_of_isChunkName hdirwf (isChunkName_of_mem_get_file_chunks hp0mem)]
    have hfail' : ∃ p ∈ p0 :: rest, p ∈ (setFile st
        (pathJoin temp_dir data.filename) []).ioerr := by
      obtain ⟨p, hp, hio⟩ := hfail
      have hperm := List.perm_insertionSort pyLe (get_file_chunks st temp_dir)
      rw [hs] at hperm
      exact ⟨p, hperm.mem_iff.mpr hp, hio⟩
    have hmerge : merge_chunks st (get_file_chunks st temp_dir) data.filename =
        .ok (false, eraseFile st (pathJoin temp_dir data.filename)) := by
      rw [merge_chunks_eq_of_sorted hs, hout,
        copyLoop_fail (p0 :: rest) _ _ hfail', eraseFile_setFile]
    refine ⟨hmerge, lookupFS_eraseAssoc_self _ _,
      fun q hq => lookupFS_eraseAssoc_ne _ hq, ?_, fun f₀ hf₀ => ?_⟩
    · subst hteq
      unfold generate_file
      rw [if_neg (by simp [hnofile])]
      simp only [hmerge]
    · refine ⟨?_, rfl⟩
      rw [find?_update_file_status, hf₀]
      rfl

/-- The concrete filesystem of the C6 witness: a single chunk whose read
fails with an injected `IOError`, and no merged file. -/
def stC6 : FSState :=
  ⟨[("u/t/i/chunk.00000000".data, [7])], ["u/t/i".data],
    ["u/t/i/chunk.00000000".data]⟩

/-- Witness for C6 at a concrete input: the merge fails, the canonical
output path stays empty, and finalize answers 500 with status `unmerged`. -/
theorem claim_C6_witness :
    merge_chunks stC6 (get_file_chunks stC6 "u/t/i".data) "f".data =
      .ok (false, eraseFile stC6 (pathJoin "u/t/i".data "f".data)) ∧
    lookupFile (eraseFile stC6 (pathJoin "u/t/i".data "f".data))
      (pathJoin "u/t/i".data "f".data) = none ∧
    (∀ q, ¬ q = pathJoin "u/t/i".data "f".data →
      lookupFile (eraseFile stC6 (pathJoin "u/t/i".data "f".data)) q =
        lookupFile stC6 q) ∧
    generate_file (fun _ => true) "u".data stC6 [⟨"i".data, "ongoing", none⟩]
        ⟨"t".data, "i".data, "f".data, 1⟩ 0 =
      .ok ⟨return_message "Error: File could not be merged" 500,
        eraseFile stC6 (pathJoin "u/t/i".data "f".data),
        update_file_status [⟨"i".data, "ongoing", none⟩] "i".data "unmerged" 0,
        true⟩ ∧
    (∀ f₀, List.find? (fun r => r.identifier ==
        (⟨"t".data, "i".data, "f".data, 1⟩ : GenData).identifier)
        [⟨"i".data, "ongoing", none⟩] = some f₀ →
      (update_file_status [⟨"i".data, "ongoing", none⟩] "i".data
          "unmerged" 0).find? (fun r => r.identifier ==
          (⟨"t".data, "i".data, "f".data, 1⟩ : GenData).identifier) =
        some (applyStatus f₀ "unmerged" 0) ∧
      (applyStatus f₀ "unmerged" 0).upload_status = "unmerged") :=
  claim_C6 (fun _ => true) "u".data stC6 [⟨"i".data, "ongoing", none⟩]
    ⟨"t".data, "i".data, "f".data, 1⟩ 0 "u/t/i".data (by decide) (by decide)
    (by decide) (by decide) ⟨"u/t/i/chunk.00000000".data, by decide, by decide⟩

/-- C9 (failing input): a finalize call for an upload with zero stored
chunk fragments and no pre-existing merged file does not return the
structured 500 response the spec requires — `chunk_paths[0]` in
`merge_chunks` raises an uncaught `IndexError` that escapes
`generate_file`. -/
theorem claim_C9_bug :
    get_file_chunks ⟨[], ["u/t/i".data], []⟩
      (get_tempdir "u".data ["t".data, "i".data]) = [] ∧
    isfile ⟨[], ["u/t/i".data], []⟩
      (pathJoin (get_tempdir "u".data ["t".data, "i".data]) "f".data) = false ∧
    generate_file (fun _ => true) "u".data ⟨[], ["u/t/i".data], []⟩ []
      ⟨"t".data, "i".data, "f".data, 1⟩ 0 = .error .indexError :=
  ⟨rfl, by decide, rfl⟩

theorem base64urlEncode_length : ∀ bs : List Byte,
    (base64urlEncode bs).length = 4 * ((bs.length + 2) / 3)
  | [] => rfl
  | [_] => by simp [base64urlEncode]
  | [_, _] => by simp [base64urlEncode]
  | _ :: _ :: _ :: rest => by
    have ih := base64urlEncode_length rest
    simp only [base64urlEncode, List.length_cons, ih]
    omega

/-- Counterexample to C7 as stated: the issued token encodes only the 12
bytes `os.urandom(12)` returns — it is 16 base64 characters, and no byte
string of length at least 16 drawn from the same generator encodes to it
(an encoding of `n ≥ 16` bytes has at least 24 characters). -/
theorem claim_C7_counterexample :
    ∃ adb', generate_auth_token ⟨[⟨"s", "srv"⟩], [], []⟩
        (fun k => List.replicate k 1) "s" "u" none none DEFAULT_DURATION_DAYS 0 =
      .ok ((base64urlEncode (List.replicate 12 1), 86400), adb') ∧
      (base64urlEncode (List.replicate 12 1)).length = 16 ∧
      ¬ ∃ n, 16 ≤ n ∧ base64urlEncode (List.replicate 12 1) =
        base64urlEncode (List.replicate n 1) := by
  refine ⟨_, rfl, by decide, ?_⟩
  rintro ⟨n, h16, heq⟩
  have hl := congrArg List.length heq
  rw [base64urlEncode_length, base64urlEncode_length, List.length_replicate,
    List.length_replicate] at hl
  omega

/-- C7 as amended: a successfully issued token is the base64url encoding of
exactly the 12 random bytes `os.urandom(12)` returns (96 bits of entropy,
short of the claimed 16 bytes), and the persisted access record carries
`creation_date = now` and
`expiration_date = now + duration_days * DAY_TICKS`, where the source's
default for `duration_days` is 1 day. -/
theorem claim_C7_amended (adb : AuthDB) (urandom : Nat → List Byte)
    (server_token username : String) (name email : Option String)
    (duration_days : Int) (now : Int) (server : ServerRec)
    (hfind : adb.servers.find? (fun s => s.server_token == server_token) =
      some server)
    (hlen : ∀ k, (urandom k).length = k) :
    ∃ users', generate_auth_token adb urandom server_token username name email
        duration_days now =
      .ok ((base64urlEncode (urandom 12), now + duration_days * DAY_TICKS),
        ⟨adb.servers, users', adb.accesses ++
          [⟨base64urlEncode (urandom 12), now, now + duration_days * DAY_TICKS,
            server.server_id ++ "/" ++ username⟩]⟩) ∧
    (urandom 12).length = 12 ∧
    DEFAULT_DURATION_DAYS = 1 := by
  refine ⟨if (adb.users.find? (fun u => u.user_id ==
        (server.server_id ++ "/" ++ username))).isSome then adb.users
      else adb.users ++ [⟨server.server_id ++ "/" ++ username, name, email⟩],
    ?_, hlen 12, rfl⟩
  simp only [generate_auth_token, hfind]

/-- Witness for the amended C7: issuing a token against a one-server store
with a deterministic byte source. -/
theorem claim_C7_witness :
    ∃ users', generate_auth_token ⟨[⟨"s", "srv"⟩], [], []⟩
        (fun k => List.replicate k 0) "s" "u" none none 1 0 =
      .ok ((base64urlEncode (List.replicate 12 0), 0 + 1 * DAY_TICKS),
        ⟨(⟨[⟨"s", "srv"⟩], [], []⟩ : AuthDB).servers, users',
          (⟨[⟨"s", "srv"⟩], [], []⟩ : AuthDB).accesses ++
            [⟨base64urlEncode (List.replicate 12 0), 0, 0 + 1 * DAY_TICKS,
              (⟨"s", "srv"⟩ : ServerRec).server_id ++ "/" ++ "u"⟩]⟩) ∧
    (List.replicate 12 (0 : Byte)).length = 12 ∧
    DEFAULT_DURATION_DAYS = 1 :=
  claim_C7_amended ⟨[⟨"s", "srv"⟩], [], []⟩ (fun k => List.replicate k 0)
    "s" "u" none none 1 0 ⟨"s", "srv"⟩ (by decide)
    (fun k => List.length_replicate k 0)

/-- The concrete filesystem of the C8 counterexample: one chunk `[5]` and a
pre-existing file `[9, 9]` at the output path `d/f`. -/
def stC8 : FSState :=
  ⟨[("d/chunk.00000000".data, [5]), ("d/f".data, [9, 9])], [], []⟩

/-- Counterexample to C8 as stated: the output file is *not* opened for
exclusive creation — a pre-existing file at the output path is silently
overwritten (`open(output_file, 'wb')` truncates) and the merge still
reports success. -/
theorem claim_C8_counterexample :
    lookupFile stC8 "d/f".data = some [9, 9] ∧
    (merge_chunks stC8 ["d/chunk.00000000".data] "f".data).toOption =
      some (true, setFile stC8 "d/f".data [5]) ∧
    lookupFile (setFile stC8 "d/f".data [5]) "d/f".data = some [5] := by
  decide

/-- C8 as amended: the output file is opened for (truncating) write in the
directory of the first — lexicographically smallest — sorted chunk path;
when a file already exists at the output path, the merge silently
overwrites it with the chunk concatenation and reports success (the
pre-existence guard lives in the caller, `generate_file`). -/
theorem claim_C8_amended (st : FSState) (chunk_paths : List FPath)
    (filename p0 : FPath) (rest : List FPath) (ct : FPath → List Byte)
    (v : List Byte)
    (hs : List.insertionSort pyLe chunk_paths = p0 :: rest)
    (hread : ∀ p ∈ chunk_paths, readFile st p = some (ct p))
    (hout : pathJoin (dirname (realpath p0)) filename ∉ chunk_paths)
    (_hpre : lookupFile st (pathJoin (dirname (realpath p0)) filename) = some v) :
    merge_chunks st chunk_paths filename =
      .ok (true, setFile st (pathJoin (dirname (realpath p0)) filename)
        (((p0 :: rest).map ct).flatten)) ∧
    lookupFile (setFile st (pathJoin (dirname (realpath p0)) filename)
        (((p0 :: rest).map ct).flatten))
      (pathJoin (dirname (realpath p0)) filename) =
      some (((p0 :: rest).map ct).flatten) := by
  have hperm := List.perm_insertionSort pyLe chunk_paths
  rw [hs] at hperm
  have hread' : ∀ p ∈ p0 :: rest, readFile st p = some (ct p) :=
    fun p hp => hread p (hperm.mem_iff.mp hp)
  have hout' : pathJoin (dirname (realpath p0)) filename ∉ p0 :: rest :=
    fun hm => hout (hperm.mem_iff.mp hm)
  refine ⟨?_, lookupFile_setFile_self _ _ _⟩
  rw [merge_chunks_eq_of_sorted hs,
    copyLoop_ok ct (p0 :: rest) st [] _ hout' hread', List.nil_append]

/-- Witness for the amended C8 at the counterexample input: the `[9, 9]`
file at `d/f` is replaced by the chunk bytes `[5]`. -/
theorem claim_C8_witness :
    merge_chunks stC8 ["d/chunk.00000000".data] "f".data =
      .ok (true, setFile stC8
        (pathJoin (dirname (realpath "d/chunk.00000000".data)) "f".data)
        ((["d/chunk.00000000".data].map (fun _ => [5])).flatten)) ∧
    lookupFile (setFile stC8
        (pathJoin (dirname (realpath "d/chunk.00000000".data)) "f".data)
        ((["d/chunk.00000000".data].map (fun _ => [5])).flatten))
      (pathJoin (dirname (realpath "d/chunk.00000000".data)) "f".data) =
      some ((["d/chunk.00000000".data].map (fun _ => ([5] : List Byte))).flatten) :=
  claim_C8_amended stC8 ["d/chunk.00000000".data] "f".data
    "d/chunk.00000000".data [] (fun _ => [5]) [9, 9] (by decide) (by decide)
    (by decide) (by decide)

theorem checksPhase_db_proj (gz : List Byte → Bool) (st : FSState)
    (data : GenData) (temp_dir merged_file : FPath) (now : Int) (flag : Bool)
    (db₁ db₂ : List FileRec) :
    (checksPhase gz st db₁ data temp_dir merged_file now flag).map
        (fun o => (o.resp, o.fs, o.calledMerge)) =
      (checksPhase gz st db₂ data temp_dir merged_file now flag).map
        (fun o => (o.resp, o.fs, o.calledMerge)) := by
  unfold checksPhase
  split
  · rfl
  · rcases getsize st merged_file with _ | size
    · rfl
    · by_cases hsz : size ≠ data.total_size
      · simp only [hsz, if_true, ne_eq, not_false_eq_true]
        rfl
      · simp only [hsz, if_false, ne_eq, not_true_eq_false]
        rfl

/-- C10: `update_file_status` is a silent no-op when no record matches the
identifier; the response (and filesystem effect) of a finalize call never
depends on the record table, so a finalize for an unknown identifier still
returns its outcome; and when a record matches and the new status is not
`ongoing`, the record's end date is set to the current time. -/
theorem claim_C10 :
    (∀ (db : List FileRec) (identifier : FPath) (status : String) (now : Int),
      (∀ f ∈ db, ¬ f.identifier = identifier) →
      update_file_status db identifier status now = db) ∧
    (∀ (gz : List Byte → Bool) (upload_folder : FPath) (st : FSState)
      (db₁ db₂ : List FileRec) (data : GenData) (now : Int),
      (generate_file gz upload_folder st db₁ data now).map
          (fun o => (o.resp, o.fs, o.calledMerge)) =
        (generate_file gz upload_folder st db₂ data now).map
          (fun o => (o.resp, o.fs, o.calledMerge))) ∧
    (∀ (db : List FileRec) (identifier : FPath) (status : String) (now : Int)
      (f : FileRec),
      db.find? (fun r => r.identifier == identifier) = some f →
      status ≠ "ongoing" →
      ∃ f', (update_file_status db identifier status now).find?
          (fun r => r.identifier == identifier) = some f' ∧
        f'.upload_status = status ∧ f'.upload_end_date = some now) := by
  refine ⟨?_, ?_, ?_⟩
  · intro db identifier status now h
    induction db with
    | nil => rfl
    | cons f rest ih =>
      rw [update_file_status,
        if_neg (h f (List.mem_cons_self f rest))]
      rw [ih (fun g hg => h g (List.mem_cons_of_mem f hg))]
  · intro gz upload_folder st db₁ db₂ data now
    unfold generate_file
    by_cases hf : isfile st (pathJoin
        (get_tempdir upload_folder [data.auth_token, data.identifier])
        data.filename)
    · rw [if_pos hf, if_pos hf]
      exact checksPhase_db_proj gz st data _ _ now false db₁ db₂
    · rw [if_neg hf, if_neg hf]
      rcases merge_chunks st (get_file_chunks st
          (get_tempdir upload_folder [data.auth_token, data.identifier]))
          data.filename with e | ⟨ok, st₁⟩
      · rfl
      · cases ok with
        | true => exact checksPhase_db_proj gz st₁ data _ _ now true db₁ db₂
        | false => rfl
  · intro db identifier status now f hfind hstatus
    refine ⟨applyStatus f status now, ?_, ?_, ?_⟩
    · rw [find?_update_file_status, hfind]
      rfl
    · rfl
    · simp [applyStatus, hstatus]

/-- Witness for C10: a one-record table; no match for identifier `x`, a
match for identifier `i` stamped `complete` with end date 5; and a
finalize call whose projected outcome ignores the record table. -/
theorem claim_C10_witness :
    (update_file_status [⟨"i".data, "ongoing", none⟩] "x".data "complete" 5 =
      [⟨"i".data, "ongoing", none⟩]) ∧
    ((generate_file (fun _ => true) "u".data ⟨[("u/t/i/f".data, [7])], [], []⟩
        [⟨"i".data, "ongoing", none⟩] ⟨"t".data, "i".data, "f".data, 1⟩ 0).map
        (fun o => (o.resp, o.fs, o.calledMerge)) =
      (generate_file (fun _ => true) "u".data ⟨[("u/t/i/f".data, [7])], [], []⟩
        [] ⟨"t".data, "i".data, "f".data, 1⟩ 0).map
        (fun o => (o.resp, o.fs, o.calledMerge))) ∧
    (∃ f', (update_file_status [⟨"i".data, "ongoing", none⟩] "i".data
        "complete" 5).find? (fun r => r.identifier == "i".data) = some f' ∧
      f'.upload_status = "complete" ∧ f'.upload_end_date = some 5) :=
  ⟨claim_C10.1 [⟨"i".data, "ongoing", none⟩] "x".data "complete" 5 (by decide),
    claim_C10.2.1 (fun _ => true) "u".data ⟨[("u/t/i/f".data, [7])], [], []⟩
      [⟨"i".data, "ongoing", none⟩] [] ⟨"t".data, "i".data, "f".data, 1⟩ 0,
    claim_C10.2.2 [⟨"i".data, "ongoing", none⟩] "i".data "complete" 5
      ⟨"i".data, "ongoing", none⟩ (by decide) (by decide)⟩
